import Mathlib

/-!
Shallow embedding of the RAG (retrieval-augmented generation) engine of the
`AIService` class (src/src/hooks/useAdminStatus.ts): keyword extraction,
document retrieval with tenant scoping and fallback, relevance scoring,
and context assembly.  Strings are modelled as lists of characters with
ASCII case folding; the document store is modelled as an ordered list of
rows together with a failure oracle for each issued query.
-/

/-- Strings of the engine, modelled as lists of characters. -/
abbrev Str : Type := List Char

/-- ASCII space character. -/
def spaceChar : Char := Char.ofNat 32

/-- Whitespace characters recognised by the JavaScript regex class. -/
def isWs (c : Char) : Bool :=
  c.toNat == 32 || c.toNat == 9 || c.toNat == 10 || c.toNat == 13 ||
  c.toNat == 11 || c.toNat == 12

/-- ASCII decimal digit. -/
def isDigitCh (c : Char) : Bool := 48 ≤ c.toNat && c.toNat ≤ 57

/-- ASCII lowercase letter. -/
def isLowerCh (c : Char) : Bool := 97 ≤ c.toNat && c.toNat ≤ 122

/-- ASCII uppercase letter. -/
def isUpperCh (c : Char) : Bool := 65 ≤ c.toNat && c.toNat ≤ 90

/-- ASCII case folding of one character (JavaScript `toLowerCase`). -/
def toLowerCh (c : Char) : Char :=
  if isUpperCh c then Char.ofNat (c.toNat + 32) else c

/-- Word character of the regex class `\w`: letter, digit, or underscore. -/
def isWordCh (c : Char) : Bool :=
  isLowerCh c || isUpperCh c || isDigitCh c || c.toNat == 95

/-- Lowercase an entire string. -/
def toLowerStr (s : Str) : Str := s.map toLowerCh

/-- `leadMatch needle hay`: the needle is an initial segment of the hay. -/
def leadMatch : Str → Str → Bool
  | [], _ => true
  | _ :: _, [] => false
  | a :: as, b :: bs => a == b && leadMatch as bs

/-- `hasSub hay needle`: JavaScript `hay.includes(needle)` (substring test). -/
def hasSub : Str → Str → Bool
  | [], needle => leadMatch needle []
  | c :: t, needle => leadMatch needle (c :: t) || hasSub t needle

/-- `replace(/[^\w\s]/g, ' ')`: every character that is neither a word
character nor whitespace becomes a single space. -/
def scrubPunct (s : Str) : Str :=
  s.map (fun c => if isWordCh c || isWs c then c else spaceChar)

mutual

/-- Worker for `jsSplitWs`, accumulating the current (reversed) token. -/
def splitWsAux : Str → Str → List Str
  | [], cur => [cur.reverse]
  | c :: cs, cur =>
    if isWs c then cur.reverse :: splitWsSkip cs else splitWsAux cs (c :: cur)

/-- Worker for `jsSplitWs`, consuming the remainder of a whitespace run. -/
def splitWsSkip : Str → List Str
  | [] => [[]]
  | c :: cs => if isWs c then splitWsSkip cs else splitWsAux cs [c]

end

/-- JavaScript `s.split(/\s+/)`: split on maximal whitespace runs; a leading
or trailing run produces an empty token, and the empty string yields one
empty token. -/
def jsSplitWs (s : Str) : List Str := splitWsAux s []

/-- The fixed stop-word set of `extractKeywords`. -/
def stopWords : List Str :=
  ["the", "a", "an", "and", "or", "but", "in", "on", "at", "to", "for",
   "of", "with", "by", "from", "up", "about", "into", "through", "during",
   "before", "after", "above", "below", "between", "among", "is", "am",
   "are", "was", "were", "be", "been", "being", "have", "has", "had",
   "do", "does", "did", "will", "would", "could", "should", "may",
   "might", "must", "shall", "can", "what", "when", "where", "why",
   "how", "who", "which", "that", "this", "these", "those", "i",
   "you", "he", "she", "it", "we", "they", "me", "him", "her",
   "us", "them"].map String.data

/-- A token survives keyword filtering when it is longer than two characters
and is not a stop word. -/
def keepTok (w : Str) : Bool :=
  decide (2 < w.length) && !(stopWords.contains w)

/-- `AIService.extractKeywords`: lowercase, scrub punctuation to spaces,
split on whitespace runs, keep meaningful tokens, take the first ten. -/
def extractKeywords (query : Str) : List Str :=
  ((jsSplitWs (scrubPunct (toLowerStr query))).filter keepTok).take 10

example : extractKeywords "How do I reset my password?".data =
    ["reset".data, "password".data] := by decide

example : extractKeywords "".data = [] := by decide

/-- A row of the `rag_documents` table (interface `RAGDocument` plus the
store columns used by retrieval: `organization_id`, `is_active`,
`created_at`). -/
structure RAGDocument where
  id : Str
  title : Str
  content : Str
  tags : List Str
  organizationId : Option Str
  isActive : Bool
  createdAt : Nat
deriving DecidableEq

/-- A document together with the transient `relevanceScore` field added by
the scorer. -/
structure ScoredDocument where
  doc : RAGDocument
  relevanceScore : Nat
deriving DecidableEq

/-- Per-document body of `scoreDocumentRelevance`: the additive score. -/
def scoreDoc (doc : RAGDocument) (keywords : List Str) (originalQuery : Str) : Nat :=
  let titleLower := toLowerStr doc.title
  let contentLower := toLowerStr doc.content
  let queryLower := toLowerStr originalQuery
  let s1 := (if hasSub titleLower queryLower then 100 else 0)
    + (if hasSub contentLower queryLower then 50 else 0)
  let s2 := keywords.foldl (fun s keyword =>
    s + (if hasSub titleLower keyword then 10 else 0)
      + (if hasSub contentLower keyword then 3 else 0)) s1
  let s3 := keywords.foldl (fun s keyword =>
    s + (if doc.tags.any (fun tag => hasSub (toLowerStr tag) keyword) then 15 else 0)) s2
  s3 + (if doc.content.length < 1000 then 5 else 0)

/-- Stable insertion of one element into a descending list: `x` moves past
`y` exactly when `key y` is strictly greater than `key x`, so among equal
keys the inserted (later) element stays behind. -/
def insertDescBy (key : α → Nat) (x : α) : List α → List α
  | [] => [x]
  | y :: ys => if key x < key y then y :: insertDescBy key x ys else x :: y :: ys

/-- Stable sort, descending by `key`; the model of the JavaScript stable
`Array.prototype.sort` with a numeric comparator. -/
def sortDescBy (key : α → Nat) : List α → List α
  | [] => []
  | x :: xs => insertDescBy key x (sortDescBy key xs)

/-- `AIService.scoreDocumentRelevance`: attach a relevance score to every
candidate and sort by score descending (stable). -/
def scoreDocumentRelevance (documents : List RAGDocument) (keywords : List Str)
    (originalQuery : Str) : List ScoredDocument :=
  sortDescBy (fun sd => sd.relevanceScore)
    (documents.map (fun doc =>
      { doc := doc, relevanceScore := scoreDoc doc keywords originalQuery }))

/-- The three shapes of store query issued by the engine, with the data the
query carries. -/
inductive StoreQuery where
  | primary (keywords : List Str) (org : Option Str) (cap : Nat)
  | fallbackWords (words : List Str) (org : Option Str) (cap : Nat)
  | recent (org : Option Str) (cap : Nat)
deriving DecidableEq

/-- The tenant filter a query carries. -/
def StoreQuery.orgOf : StoreQuery → Option Str
  | .primary _ org _ => org
  | .fallbackWords _ org _ => org
  | .recent org _ => org

/-- The document store: an ordered list of rows plus a failure oracle
saying which issued queries fail. -/
structure Store where
  db : List RAGDocument
  fails : StoreQuery → Bool

/-- `eq('organization_id', org)` filter; absent when no scope is applied. -/
def orgMatch : Option Str → RAGDocument → Bool
  | none, _ => true
  | some o, d => d.organizationId == some o

/-- Primary disjunctive filter: for some keyword, the title or content
contains it case-insensitively (`ilike`), or the tag array contains it
exactly (`cs`). -/
def primaryCond (keywords : List Str) (d : RAGDocument) : Bool :=
  keywords.any (fun keyword =>
    hasSub (toLowerStr d.title) keyword || hasSub (toLowerStr d.content) keyword ||
    d.tags.contains keyword)

/-- Fallback disjunctive filter: title or content contains some word
case-insensitively; tags are not consulted. -/
def fallbackCond (words : List Str) (d : RAGDocument) : Bool :=
  words.any (fun word =>
    hasSub (toLowerStr d.title) word || hasSub (toLowerStr d.content) word)

/-- Row semantics of a successful store query: filter the rows in store
order, order by `created_at` descending for the recent query, and cap the
row count. -/
def queryRows (db : List RAGDocument) : StoreQuery → List RAGDocument
  | .primary keywords org cap =>
    (db.filter (fun d => d.isActive && orgMatch org d && primaryCond keywords d)).take cap
  | .fallbackWords words org cap =>
    (db.filter (fun d => d.isActive && orgMatch org d && fallbackCond words d)).take cap
  | .recent org cap =>
    (sortDescBy (fun d => d.createdAt) (db.filter (fun d => d.isActive && orgMatch org d))).take cap

/-- Execute a query against the store: either the rows, or a store error. -/
def runQuery (st : Store) (q : StoreQuery) : Except Unit (List RAGDocument) :=
  if st.fails q then .error () else .ok (queryRows st.db q)

/-- JavaScript truthiness of the organization context: `null` and the empty
string both mean that no tenant filter is applied. -/
def truthyScope : Option Str → Option Str
  | none => none
  | some o => if o.isEmpty then none else some o

/-- The words used by the fallback search: whitespace tokens of the
lowercased raw query (no punctuation scrubbing) of length greater than 3,
with no stop-word filtering. -/
def fallbackWordsOf (query : Str) : List Str :=
  (jsSplitWs (toLowerStr query)).filter (fun word => decide (3 < word.length))

/-- `AIService.fallbackDocumentSearch`, instrumented with the list of store
queries it issues. A store error in either branch is caught and yields the
empty result. -/
def fallbackDocumentSearchT (st : Store) (ctx : Option Str) (query : Str)
    (limit : Nat) : List RAGDocument × List StoreQuery :=
  let words := fallbackWordsOf query
  if words.isEmpty then
    let q := StoreQuery.recent (truthyScope ctx) limit
    match runQuery st q with
    | .ok data => (data, [q])
    | .error _ => ([], [q])
  else
    let q := StoreQuery.fallbackWords words (truthyScope ctx) limit
    match runQuery st q with
    | .ok data => (data, [q])
    | .error _ => ([], [q])

/-- `AIService.retrieveRelevantDocuments`, instrumented with the list of
store queries it issues. No keywords: return empty without querying. A
primary store error is caught and yields the empty result. Zero primary
candidates: delegate to the fallback. Otherwise score, rank, and truncate
to `limit`. -/
def retrieveRelevantDocumentsT (st : Store) (ctx : Option Str) (query : Str)
    (limit : Nat) : List RAGDocument × List StoreQuery :=
  let keywords := extractKeywords query
  if keywords.isEmpty then ([], [])
  else
    let q := StoreQuery.primary keywords (truthyScope ctx) (limit * 2)
    match runQuery st q with
    | .error _ => ([], [q])
    | .ok data =>
      if data.isEmpty then
        let fb := fallbackDocumentSearchT st ctx query limit
        (fb.1, q :: fb.2)
      else
        (((scoreDocumentRelevance data keywords query).take limit).map
          (fun sd => sd.doc), [q])

/-- The documents returned by `retrieveRelevantDocuments`. -/
def retrieveRelevantDocuments (st : Store) (ctx : Option Str) (query : Str)
    (limit : Nat) : List RAGDocument :=
  (retrieveRelevantDocumentsT st ctx query limit).1

/-- The engine instance state: the mutable organization context field. -/
structure AIService where
  currentOrganizationId : Option Str
deriving DecidableEq

/-- The `AIService` constructor: `this.currentOrganizationId =
organizationId || null` (empty string is falsy and becomes `null`). -/
def AIService.make (organizationId : Option Str) : AIService :=
  { currentOrganizationId := truthyScope organizationId }

/-- `AIService.setOrganizationContext`: overwrite the context field. -/
def setOrganizationContext (_svc : AIService) (organizationId : Option Str) : AIService :=
  { currentOrganizationId := organizationId }

/-- Retrieval through an engine instance, using its current context. -/
def AIService.retrieveDocsT (svc : AIService) (st : Store) (query : Str)
    (limit : Nat) : List RAGDocument × List StoreQuery :=
  retrieveRelevantDocumentsT st svc.currentOrganizationId query limit

/-- Join a list of strings with a separator (JavaScript `Array.join`). -/
def joinSep (sep : Str) : List Str → Str
  | [] => []
  | [b] => b
  | b :: bs => b ++ sep ++ joinSep sep bs

/-- Content shown for one document in the context: cut to 1500 characters
with a `...` marker when longer. -/
def truncOf (d : RAGDocument) : Str :=
  if 1500 < d.content.length then d.content.take 1500 ++ "...".data else d.content

/-- The tags line of one context block; empty when the document has no
tags. -/
def tagsPart (d : RAGDocument) : Str :=
  if d.tags.isEmpty then [] else "Tags: ".data ++ joinSep ", ".data d.tags

/-- One numbered context block (`index` is zero-based, displayed as
`index + 1`). -/
def blockOf (index : Nat) (d : RAGDocument) : Str :=
  "Document ".data ++ (toString (index + 1)).data ++ ":\nTitle: ".data ++
    d.title ++ "\nContent: ".data ++ truncOf d ++ "\n".data ++ tagsPart d

/-- The blocks of a document list, numbering from `index`. -/
def blocksFrom (index : Nat) : List RAGDocument → List Str
  | [] => []
  | d :: ds => blockOf index d :: blocksFrom (index + 1) ds

/-- Separator placed between context blocks. -/
def blockSep : Str := "\n\n---\n\n".data

/-- Instructional preamble of the assembled context. -/
def ctxPre : Str :=
  ("You have access to the following relevant documentation. " ++
   "Please use this information to provide accurate and helpful responses:\n\n").data

/-- Instructional postamble of the assembled context. -/
def ctxPost : Str :=
  ("\n\nIMPORTANT: When answering, reference the specific documents above " ++
   "when relevant and provide accurate information based on the documentation provided.").data

/-- `AIService.generateContext`: empty input gives the empty string;
otherwise the numbered blocks joined by the separator and wrapped in the
fixed preamble and postamble. -/
def generateContext (documents : List RAGDocument) : Str :=
  if documents.isEmpty then []
  else ctxPre ++ joinSep blockSep (blocksFrom 0 documents) ++ ctxPost

/-!  Specification-side definitions, written from the wording of the claims
rather than from the source, for comparison with the source embedding. -/

/-- Splitter written from the spec wording: the (nonempty) tokens between
maximal whitespace runs.  Independent implementation: empties are never
produced rather than produced and later discarded. -/
def specSplitAux : Str → Str → List Str
  | [], cur => if cur.isEmpty then [] else [cur.reverse]
  | c :: cs, cur =>
    if isWs c then
      if cur.isEmpty then specSplitAux cs [] else cur.reverse :: specSplitAux cs []
    else specSplitAux cs (c :: cur)

/-- Split a string into its whitespace-delimited tokens (spec wording). -/
def specSplitWs (s : Str) : List Str := specSplitAux s []

/-- Keyword extraction exactly as claim C3 words it: every character that
is not a letter, digit, or whitespace (underscore included) becomes a
space before splitting. -/
def extractKeywordsSpec (query : Str) : List Str :=
  ((specSplitWs ((toLowerStr query).map (fun c =>
      if isLowerCh c || isUpperCh c || isDigitCh c || isWs c then c
      else spaceChar))).filter keepTok).take 10

/-- Keyword extraction as amended: underscore also survives the
punctuation scrub, as in the regex class `\w`. -/
def extractKeywordsAmended (query : Str) : List Str :=
  ((specSplitWs ((toLowerStr query).map (fun c =>
      if isLowerCh c || isUpperCh c || isDigitCh c || c.toNat == 95 || isWs c then c
      else spaceChar))).filter keepTok).take 10

/-- The meaningful tokens of a query before the ten-keyword truncation. -/
def meaningfulTokensOf (query : Str) : List Str :=
  (jsSplitWs (scrubPunct (toLowerStr query))).filter keepTok

/-- Fully case-insensitive substring test (both sides folded). -/
def hasSubCI (hay needle : Str) : Bool :=
  hasSub (toLowerStr hay) (toLowerStr needle)

/-- The score as claim C1 words it, with every check case-insensitive on
both sides: 100 for the query in the title, 50 for the query in the
content, 10 per keyword in the title, 3 per keyword in the content, 15 per
keyword matching some tag, 5 for content shorter than 1000 characters. -/
def specRelevanceScoreCI (keywords : List Str) (query : Str) (d : RAGDocument) : Nat :=
  (if hasSubCI d.title query then 100 else 0)
  + (if hasSubCI d.content query then 50 else 0)
  + 10 * keywords.countP (fun k => hasSubCI d.title k)
  + 3 * keywords.countP (fun k => hasSubCI d.content k)
  + 15 * keywords.countP (fun k => d.tags.any (fun tag => hasSubCI tag k))
  + (if d.content.length < 1000 then 5 else 0)

/-- The score the code computes, as a closed formula: keywords are compared
verbatim against the lowercased title, content, and tags. -/
def codeRelevanceScore (keywords : List Str) (query : Str) (d : RAGDocument) : Nat :=
  (if hasSub (toLowerStr d.title) (toLowerStr query) then 100 else 0)
  + (if hasSub (toLowerStr d.content) (toLowerStr query) then 50 else 0)
  + 10 * keywords.countP (fun k => hasSub (toLowerStr d.title) k)
  + 3 * keywords.countP (fun k => hasSub (toLowerStr d.content) k)
  + 15 * keywords.countP (fun k => d.tags.any (fun tag => hasSub (toLowerStr tag) k))
  + (if d.content.length < 1000 then 5 else 0)

/-- Score contribution of one keyword occurrence to one document. -/
def perKeywordPts (d : RAGDocument) (k : Str) : Nat :=
  (if hasSub (toLowerStr d.title) k then 10 else 0)
  + (if hasSub (toLowerStr d.content) k then 3 else 0)
  + (if d.tags.any (fun tag => hasSub (toLowerStr tag) k) then 15 else 0)

/-- Keyword-independent part of the score: full-query matches and the
brevity bonus. -/
def basePts (query : Str) (d : RAGDocument) : Nat :=
  (if hasSub (toLowerStr d.title) (toLowerStr query) then 100 else 0)
  + (if hasSub (toLowerStr d.content) (toLowerStr query) then 50 else 0)
  + (if d.content.length < 1000 then 5 else 0)

/-!  Helper lemmas. -/

theorem leadMatch_append_self (mid post : Str) : leadMatch mid (mid ++ post) = true := by
  induction mid with
  | nil => rfl
  | cons a as ih => simp [leadMatch, ih]

theorem hasSub_nil_needle (hay : Str) : hasSub hay [] = true := by
  cases hay with
  | nil => rfl
  | cons c t => simp [hasSub, leadMatch]

theorem hasSub_parts (pre mid post : Str) : hasSub (pre ++ mid ++ post) mid = true := by
  induction pre with
  | nil =>
    cases mid with
    | nil => exact hasSub_nil_needle post
    | cons c t =>
      simp only [List.nil_append, List.cons_append, hasSub, Bool.or_eq_true]
      exact Or.inl (leadMatch_append_self (c :: t) post)
  | cons c t ih =>
    simp only [List.cons_append, hasSub, Bool.or_eq_true]
    exact Or.inr ih

theorem foldl_add_fn (f : α → Nat) (l : List α) (init : Nat) :
    l.foldl (fun s k => s + f k) init = init + (l.map f).sum := by
  induction l generalizing init with
  | nil => simp
  | cons a as ih => simp [List.foldl_cons, ih]; omega

theorem foldl_add_fn2 (f g : α → Nat) (l : List α) (init : Nat) :
    l.foldl (fun s k => s + f k + g k) init = init + (l.map f).sum + (l.map g).sum := by
  induction l generalizing init with
  | nil => simp
  | cons a as ih => simp [List.foldl_cons, ih]; omega

theorem sum_map_ite_count (p : α → Bool) (c : Nat) (l : List α) :
    (l.map (fun k => if p k then c else 0)).sum = c * l.countP p := by
  induction l with
  | nil => simp
  | cons a as ih =>
    by_cases h : p a = true
    · simp [h, ih, List.countP_cons]; ring
    · simp [h, ih, List.countP_cons]

theorem scoreDoc_eq_code (d : RAGDocument) (keywords : List Str) (q : Str) :
    scoreDoc d keywords q = codeRelevanceScore keywords q d := by
  simp only [scoreDoc, codeRelevanceScore]
  rw [foldl_add_fn2, foldl_add_fn, sum_map_ite_count, sum_map_ite_count,
    sum_map_ite_count]

theorem perm_insertDescBy (key : α → Nat) (x : α) (l : List α) :
    List.Perm (insertDescBy key x l) (x :: l) := by
  induction l with
  | nil => rfl
  | cons y ys ih =>
    by_cases h : key x < key y
    · simp only [insertDescBy, if_pos h]
      exact ((ih.cons y).trans (List.Perm.swap x y ys))
    · simp [insertDescBy, if_neg h]

theorem perm_sortDescBy (key : α → Nat) (l : List α) :
    List.Perm (sortDescBy key l) l := by
  induction l with
  | nil => rfl
  | cons x xs ih => exact (perm_insertDescBy key x (sortDescBy key xs)).trans (ih.cons x)

theorem pairwise_insertDescBy (key : α → Nat) (x : α) (l : List α)
    (h : l.Pairwise (fun a b => key b ≤ key a)) :
    (insertDescBy key x l).Pairwise (fun a b => key b ≤ key a) := by
  induction l with
  | nil => simp [insertDescBy]
  | cons y ys ih =>
    rcases List.pairwise_cons.mp h with ⟨hy, hys⟩
    by_cases hlt : key x < key y
    · simp only [insertDescBy, if_pos hlt]
      refine List.pairwise_cons.mpr ⟨?_, ih hys⟩
      intro z hz
      rcases List.mem_cons.mp ((perm_insertDescBy key x ys).mem_iff.mp hz) with hz3 | hz3
      · exact hz3 ▸ Nat.le_of_lt hlt
      · exact hy z hz3
    · simp only [insertDescBy, if_neg hlt]
      refine List.pairwise_cons.mpr ⟨?_, h⟩
      intro z hz
      rcases List.mem_cons.mp hz with hz | hz
      · exact hz ▸ Nat.le_of_not_lt hlt
      · exact Nat.le_trans (hy z hz) (Nat.le_of_not_lt hlt)

theorem pairwise_sortDescBy (key : α → Nat) (l : List α) :
    (sortDescBy key l).Pairwise (fun a b => key b ≤ key a) := by
  induction l with
  | nil => simp [sortDescBy]
  | cons x xs ih => exact pairwise_insertDescBy key x (sortDescBy key xs) ih

theorem filter_insertDescBy (key : α → Nat) (s : Nat) (x : α) (l : List α) :
    (insertDescBy key x l).filter (fun z => decide (key z = s)) =
      if key x = s then x :: l.filter (fun z => decide (key z = s))
      else l.filter (fun z => decide (key z = s)) := by
  induction l with
  | nil => by_cases h : key x = s <;> simp [insertDescBy, h]
  | cons y ys ih =>
    by_cases hlt : key x < key y
    · simp only [insertDescBy, if_pos hlt, List.filter_cons, ih]
      by_cases hxs : key x = s
      · have hys : ¬ key y = s := by omega
        simp [hxs, hys]
      · by_cases hys : key y = s <;> simp [hxs, hys]
    · simp only [insertDescBy, if_neg hlt, List.filter_cons]
      by_cases hxs : key x = s <;> by_cases hys : key y = s <;> simp [hxs, hys]

theorem filter_sortDescBy (key : α → Nat) (s : Nat) (l : List α) :
    (sortDescBy key l).filter (fun z => decide (key z = s)) =
      l.filter (fun z => decide (key z = s)) := by
  induction l with
  | nil => rfl
  | cons x xs ih =>
    simp only [sortDescBy, filter_insertDescBy, ih, List.filter_cons]
    by_cases h : key x = s <;> simp [h]

theorem filter_eq_nil_of_none (p : α → Bool) (l : List α)
    (h : ∀ t, t ∈ l → p t = false) : l.filter p = [] := by
  induction l with
  | nil => rfl
  | cons a as ih =>
    have ha := h a (List.mem_cons_self a as)
    simp [List.filter_cons, ha, ih (fun t ht => h t (List.mem_cons_of_mem a ht))]

theorem filter_absorb (p q : α → Bool) (l : List α)
    (h : ∀ t, p t = true → q t = true) : (l.filter q).filter p = l.filter p := by
  induction l with
  | nil => rfl
  | cons a as ih =>
    by_cases hq : q a = true
    · by_cases hp : p a = true <;> simp [List.filter_cons, hq, hp, ih]
    · have hp : p a = false := by
        cases hpa : p a with
        | false => rfl
        | true => exact absurd (h a hpa) (by simp [hq])
      simp [List.filter_cons, hq, hp, ih]

theorem queryRows_active_org (db : List RAGDocument) (qq : StoreQuery)
    (d : RAGDocument) (h : d ∈ queryRows db qq) :
    d.isActive = true ∧ orgMatch qq.orgOf d = true := by
  cases qq with
  | primary keywords org cap =>
    have hm := List.mem_filter.mp ((List.take_sublist _ _).subset h)
    have h2 := hm.2
    simp only [Bool.and_eq_true] at h2
    exact ⟨h2.1.1, h2.1.2⟩
  | fallbackWords words org cap =>
    have hm := List.mem_filter.mp ((List.take_sublist _ _).subset h)
    have h2 := hm.2
    simp only [Bool.and_eq_true] at h2
    exact ⟨h2.1.1, h2.1.2⟩
  | recent org cap =>
    have hs : d ∈ sortDescBy (fun d => d.createdAt)
        (db.filter (fun d => d.isActive && orgMatch org d)) :=
      (List.take_sublist _ _).subset h
    have hm := List.mem_filter.mp ((perm_sortDescBy _ _).mem_iff.mp hs)
    have h2 := hm.2
    simp only [Bool.and_eq_true] at h2
    exact h2

theorem mem_scored_doc (documents : List RAGDocument) (keywords : List Str)
    (q : Str) (sd : ScoredDocument)
    (h : sd ∈ scoreDocumentRelevance documents keywords q) :
    sd.doc ∈ documents ∧ sd.relevanceScore = scoreDoc sd.doc keywords q := by
  have hm := (perm_sortDescBy _ _).mem_iff.mp h
  rcases List.mem_map.mp hm with ⟨d, hd, hmk⟩
  constructor
  · have : sd.doc = d := by rw [← hmk]
    rw [this]; exact hd
  · rw [← hmk]

theorem fallback_mem_trace (st : Store) (ctx : Option Str) (query : Str)
    (limit : Nat) (d : RAGDocument)
    (h : d ∈ (fallbackDocumentSearchT st ctx query limit).1) :
    ∃ qq, qq ∈ (fallbackDocumentSearchT st ctx query limit).2 ∧
      d ∈ queryRows st.db qq := by
  unfold fallbackDocumentSearchT at *
  by_cases hw : (fallbackWordsOf query).isEmpty
  · simp only [hw, if_pos] at h ⊢
    unfold runQuery at h ⊢
    by_cases hf : st.fails (StoreQuery.recent (truthyScope ctx) limit) = true
    · simp [hf] at h
    · simp only [Bool.not_eq_true] at hf
      simp [hf] at h ⊢
      exact h
  · simp only [hw, if_neg, Bool.false_eq_true, not_false_eq_true] at h ⊢
    unfold runQuery at h ⊢
    by_cases hf : st.fails
        (StoreQuery.fallbackWords (fallbackWordsOf query) (truthyScope ctx) limit) = true
    · simp [hf] at h
    · simp only [Bool.not_eq_true] at hf
      simp [hf] at h ⊢
      exact h

theorem retrieve_mem_trace (st : Store) (ctx : Option Str) (query : Str)
    (limit : Nat) (d : RAGDocument)
    (h : d ∈ (retrieveRelevantDocumentsT st ctx query limit).1) :
    ∃ qq, qq ∈ (retrieveRelevantDocumentsT st ctx query limit).2 ∧
      d ∈ queryRows st.db qq := by
  unfold retrieveRelevantDocumentsT at *
  by_cases hk : (extractKeywords query).isEmpty
  · simp [hk] at h
  · simp only [hk, Bool.false_eq_true, if_neg, not_false_eq_true] at h ⊢
    unfold runQuery at h ⊢
    by_cases hf : st.fails (StoreQuery.primary (extractKeywords query)
        (truthyScope ctx) (limit * 2)) = true
    · simp [hf] at h
    · simp only [Bool.not_eq_true] at hf
      simp only [hf, Bool.false_eq_true, if_neg, not_false_eq_true] at h ⊢
      by_cases hd : (queryRows st.db (StoreQuery.primary (extractKeywords query)
          (truthyScope ctx) (limit * 2))).isEmpty
      · simp only [hd, if_pos] at h ⊢
        rcases fallback_mem_trace st ctx query limit d h with ⟨qq, hq, hrow⟩
        exact ⟨qq, List.mem_cons_of_mem _ hq, hrow⟩
      · simp only [hd, Bool.false_eq_true, if_neg, not_false_eq_true] at h ⊢
        rcases List.mem_map.mp h with ⟨sd, hsd, hdoc⟩
        have hsd2 := mem_scored_doc _ _ _ sd ((List.take_sublist _ _).subset hsd)
        refine ⟨_, List.mem_singleton.mpr rfl, ?_⟩
        rw [← hdoc]
        exact hsd2.1

theorem fallback_trace_org (st : Store) (ctx : Option Str) (query : Str)
    (limit : Nat) (qq : StoreQuery)
    (h : qq ∈ (fallbackDocumentSearchT st ctx query limit).2) :
    qq.orgOf = truthyScope ctx := by
  unfold fallbackDocumentSearchT at h
  by_cases hw : (fallbackWordsOf query).isEmpty
  · simp only [hw, if_pos] at h
    unfold runQuery at h
    by_cases hf : st.fails (StoreQuery.recent (truthyScope ctx) limit) = true
    · simp [hf] at h
      rw [h]; rfl
    · simp only [Bool.not_eq_true] at hf
      simp [hf] at h
      rw [h]; rfl
  · simp only [hw, Bool.false_eq_true, if_neg, not_false_eq_true] at h
    unfold runQuery at h
    by_cases hf : st.fails (StoreQuery.fallbackWords (fallbackWordsOf query)
        (truthyScope ctx) limit) = true
    · simp [hf] at h
      rw [h]; rfl
    · simp only [Bool.not_eq_true] at hf
      simp [hf] at h
      rw [h]; rfl

theorem retrieve_trace_org (st : Store) (ctx : Option Str) (query : Str)
    (limit : Nat) (qq : StoreQuery)
    (h : qq ∈ (retrieveRelevantDocumentsT st ctx query limit).2) :
    qq.orgOf = truthyScope ctx := by
  unfold retrieveRelevantDocumentsT at h
  by_cases hk : (extractKeywords query).isEmpty
  · simp [hk] at h
  · simp only [hk, Bool.false_eq_true, if_neg, not_false_eq_true] at h
    unfold runQuery at h
    by_cases hf : st.fails (StoreQuery.primary (extractKeywords query)
        (truthyScope ctx) (limit * 2)) = true
    · simp [hf] at h
      rw [h]; rfl
    · simp only [Bool.not_eq_true] at hf
      simp only [hf, Bool.false_eq_true, if_neg, not_false_eq_true] at h
      by_cases hd : (queryRows st.db (StoreQuery.primary (extractKeywords query)
          (truthyScope ctx) (limit * 2))).isEmpty
      · simp only [hd, if_pos] at h
        rcases List.mem_cons.mp h with hq | hq
        · rw [hq]; rfl
        · exact fallback_trace_org st ctx query limit qq hq
      · simp only [hd, Bool.false_eq_true, if_neg, not_false_eq_true] at h
        rw [List.mem_singleton.mp h]; rfl

theorem split_filter_joint (s : Str) :
    (∀ cur, (splitWsAux s cur).filter (fun w => !w.isEmpty) = specSplitAux s cur) ∧
    (splitWsSkip s).filter (fun w => !w.isEmpty) = specSplitAux s [] := by
  induction s with
  | nil =>
    constructor
    · intro cur
      cases cur with
      | nil => rfl
      | cons a as => simp [splitWsAux, specSplitAux, List.filter_cons]
    · rfl
  | cons c cs ih =>
    constructor
    · intro cur
      by_cases hws : isWs c = true
      · cases cur with
        | nil => simp [splitWsAux, specSplitAux, hws, List.filter_cons, ih.2]
        | cons a as => simp [splitWsAux, specSplitAux, hws, List.filter_cons, ih.2]
      · simp only [Bool.not_eq_true] at hws
        simp [splitWsAux, specSplitAux, hws, ih.1]
    · by_cases hws : isWs c = true
      · simp [splitWsSkip, specSplitAux, hws, ih.2]
      · simp only [Bool.not_eq_true] at hws
        simp [splitWsSkip, specSplitAux, hws, ih.1]

theorem specSplitWs_eq (s : Str) :
    specSplitWs s = (jsSplitWs s).filter (fun w => !w.isEmpty) :=
  ((split_filter_joint s).1 []).symm

theorem keepTok_nonempty (t : Str) (h : keepTok t = true) : (!t.isEmpty) = true := by
  cases t with
  | nil => simp [keepTok] at h
  | cons a as => rfl

theorem amendScrub_eq (s : Str) :
    (s.map (fun c =>
      if isLowerCh c || isUpperCh c || isDigitCh c || c.toNat == 95 || isWs c then c
      else spaceChar)) = scrubPunct s := by
  simp only [scrubPunct, isWordCh, Bool.or_assoc]

theorem blocksFrom_mem (d : RAGDocument) (docs : List RAGDocument) (i : Nat)
    (h : d ∈ docs) : ∃ n, blockOf n d ∈ blocksFrom i docs := by
  induction docs generalizing i with
  | nil => cases h
  | cons d0 ds ih =>
    rcases List.mem_cons.mp h with h0 | h0
    · exact ⟨i, by rw [h0]; exact List.mem_cons_self _ _⟩
    · rcases ih (i + 1) h0 with ⟨n, hn⟩
      exact ⟨n, List.mem_cons_of_mem _ hn⟩

theorem joinSep_decomp (sep b : Str) (l : List Str) (h : b ∈ l) :
    ∃ p q, joinSep sep l = p ++ (b ++ q) := by
  induction l with
  | nil => cases h
  | cons b0 bs ih =>
    cases bs with
    | nil =>
      have hb : b = b0 := by
        rcases List.mem_cons.mp h with h0 | h0
        · exact h0
        · cases h0
      exact ⟨[], [], by simp [joinSep, hb]⟩
    | cons b1 bs1 =>
      rcases List.mem_cons.mp h with h0 | h0
      · exact ⟨[], sep ++ joinSep sep (b1 :: bs1), by simp [joinSep, h0]⟩
      · rcases ih h0 with ⟨p, q, hpq⟩
        exact ⟨b0 ++ sep ++ p, q, by simp [joinSep, hpq]⟩

theorem generateContext_decomp (docs : List RAGDocument) (d : RAGDocument)
    (h : d ∈ docs) : ∃ p q, generateContext docs = p ++ (truncOf d ++ q) := by
  have hne : docs.isEmpty = false := by
    cases docs with
    | nil => cases h
    | cons a as => rfl
  rcases blocksFrom_mem d docs 0 h with ⟨n, hn⟩
  rcases joinSep_decomp blockSep (blockOf n d) (blocksFrom 0 docs) hn with ⟨p, q, hpq⟩
  refine ⟨ctxPre ++ p ++ ("Document ".data ++ (toString (n + 1)).data ++
    ":\nTitle: ".data ++ d.title ++ "\nContent: ".data), "\n".data ++ tagsPart d ++
    (q ++ ctxPost), ?_⟩
  simp [generateContext, hne, hpq, blockOf, List.append_assoc]

theorem fallback_fail_empty (st : Store) (ctx : Option Str) (query : Str)
    (limit : Nat)
    (h : ∃ qq, qq ∈ (fallbackDocumentSearchT st ctx query limit).2 ∧
      st.fails qq = true) :
    (fallbackDocumentSearchT st ctx query limit).1 = [] := by
  rcases h with ⟨qq, hin, hfq⟩
  unfold fallbackDocumentSearchT at *
  by_cases hw : (fallbackWordsOf query).isEmpty
  · simp only [hw, if_pos] at hin ⊢
    unfold runQuery at hin ⊢
    by_cases hf : st.fails (StoreQuery.recent (truthyScope ctx) limit) = true
    · simp [hf]
    · simp only [Bool.not_eq_true] at hf
      simp [hf] at hin ⊢
      rw [hin] at hfq
      rw [hfq] at hf
      cases hf
  · simp only [hw, Bool.false_eq_true, if_neg, not_false_eq_true] at hin ⊢
    unfold runQuery at hin ⊢
    by_cases hf : st.fails (StoreQuery.fallbackWords (fallbackWordsOf query)
        (truthyScope ctx) limit) = true
    · simp [hf]
    · simp only [Bool.not_eq_true] at hf
      simp [hf] at hin ⊢
      rw [hin] at hfq
      rw [hfq] at hf
      cases hf

theorem retrieve_fail_empty (st : Store) (ctx : Option Str) (query : Str)
    (limit : Nat)
    (h : ∃ qq, qq ∈ (retrieveRelevantDocumentsT st ctx query limit).2 ∧
      st.fails qq = true) :
    (retrieveRelevantDocumentsT st ctx query limit).1 = [] := by
  rcases h with ⟨qq, hin, hfq⟩
  unfold retrieveRelevantDocumentsT at *
  by_cases hk : (extractKeywords query).isEmpty
  · simp [hk]
  · simp only [hk, Bool.false_eq_true, if_neg, not_false_eq_true] at hin ⊢
    unfold runQuery at hin ⊢
    by_cases hf : st.fails (StoreQuery.primary (extractKeywords query)
        (truthyScope ctx) (limit * 2)) = true
    · simp [hf]
    · simp only [Bool.not_eq_true] at hf
      simp only [hf, Bool.false_eq_true, if_neg, not_false_eq_true] at hin ⊢
      by_cases hd : (queryRows st.db (StoreQuery.primary (extractKeywords query)
          (truthyScope ctx) (limit * 2))).isEmpty
      · simp only [hd, if_pos] at hin ⊢
        rcases List.mem_cons.mp hin with h0 | h0
        · rw [h0] at hfq
          rw [hfq] at hf
          cases hf
        · exact fallback_fail_empty st ctx query limit ⟨qq, h0, hfq⟩
      · simp only [hd, Bool.false_eq_true, if_neg, not_false_eq_true] at hin ⊢
        rw [List.mem_singleton.mp hin] at hfq
        rw [hfq] at hf
        cases hf

theorem retrieve_nodup (st : Store) (ctx : Option Str) (query : Str)
    (limit : Nat) (hdb : st.db.Nodup) :
    (retrieveRelevantDocumentsT st ctx query limit).1.Nodup := by
  have hrows : ∀ qq, (queryRows st.db qq).Nodup := by
    intro qq
    cases qq with
    | primary keywords org cap =>
      exact List.Nodup.sublist (List.take_sublist _ _) (List.Nodup.filter _ hdb)
    | fallbackWords words org cap =>
      exact List.Nodup.sublist (List.take_sublist _ _) (List.Nodup.filter _ hdb)
    | recent org cap =>
      refine List.Nodup.sublist (List.take_sublist _ _) ?_
      exact ((perm_sortDescBy _ _).nodup_iff).mpr (List.Nodup.filter _ hdb)
  unfold retrieveRelevantDocumentsT
  by_cases hk : (extractKeywords query).isEmpty
  · simp [hk]
  · simp only [hk, Bool.false_eq_true, if_neg, not_false_eq_true]
    unfold runQuery
    by_cases hf : st.fails (StoreQuery.primary (extractKeywords query)
        (truthyScope ctx) (limit * 2)) = true
    · simp [hf]
    · simp only [Bool.not_eq_true] at hf
      simp only [hf, Bool.false_eq_true, if_neg, not_false_eq_true]
      by_cases hd : (queryRows st.db (StoreQuery.primary (extractKeywords query)
          (truthyScope ctx) (limit * 2))).isEmpty
      · simp only [hd, if_pos]
        unfold fallbackDocumentSearchT
        by_cases hw : (fallbackWordsOf query).isEmpty
        · simp only [hw, if_pos]
          unfold runQuery
          by_cases hf2 : st.fails (StoreQuery.recent (truthyScope ctx) limit) = true
          · simp [hf2]
          · simp only [Bool.not_eq_true] at hf2
            simp [hf2, hrows]
        · simp only [hw, Bool.false_eq_true, if_neg, not_false_eq_true]
          unfold runQuery
          by_cases hf2 : st.fails (StoreQuery.fallbackWords (fallbackWordsOf query)
              (truthyScope ctx) limit) = true
          · simp [hf2]
          · simp only [Bool.not_eq_true] at hf2
            simp [hf2, hrows]
      · simp only [hd, Bool.false_eq_true, if_neg, not_false_eq_true]
        have hdata := hrows (StoreQuery.primary (extractKeywords query)
          (truthyScope ctx) (limit * 2))
        have hmap : ((queryRows st.db (StoreQuery.primary (extractKeywords query)
            (truthyScope ctx) (limit * 2))).map (fun doc =>
              ({ doc := doc, relevanceScore :=
                scoreDoc doc (extractKeywords query) query } : ScoredDocument))).Nodup := by
          refine List.Nodup.map_on ?_ hdata
          intro x _ y _ hxy
          exact congrArg ScoredDocument.doc hxy
        have hsorted : (scoreDocumentRelevance (queryRows st.db
            (StoreQuery.primary (extractKeywords query) (truthyScope ctx) (limit * 2)))
            (extractKeywords query) query).Nodup := by
          unfold scoreDocumentRelevance
          exact ((perm_sortDescBy _ _).nodup_iff).mpr hmap
        have htake := List.Nodup.sublist (List.take_sublist limit _) hsorted
        refine List.Nodup.map_on ?_ htake
        intro x hx y hy hxy
        have hx2 := mem_scored_doc _ _ _ x ((List.take_sublist _ _).subset hx)
        have hy2 := mem_scored_doc _ _ _ y ((List.take_sublist _ _).subset hy)
        cases x with
        | mk xd xs =>
          cases y with
          | mk yd ys =>
            simp only at hxy hx2 hy2
            rw [hxy, hx2.2, hy2.2, hxy]

/-!  Concrete fixtures for counterexamples and witnesses. -/

/-- A tiny document: lowercase one-letter title, empty content. -/
def exDocT : RAGDocument :=
  { id := "t".data, title := "a".data, content := [], tags := [],
    organizationId := none, isActive := true, createdAt := 0 }

/-!  Claim C3. -/

/-- C3, counterexample: the code keeps underscores (regex class `\w`), so
on the query `ab_cd` it returns the five-character token `ab_cd`, while the
claimed procedure (underscore replaced by a space) leaves only the short
tokens `ab` and `cd` and returns nothing. -/
theorem extractKeywords_underscore_counterexample :
    extractKeywords "ab_cd".data ≠ extractKeywordsSpec "ab_cd".data := by decide

/-- C3 as amended: `extractKeywords` lowercases, replaces every character
that is not a letter, digit, underscore, or whitespace with a single space,
splits on whitespace runs, discards tokens of length at most 2 and stop
words, and keeps the first ten surviving tokens; the result never exceeds
ten keywords and the empty query yields no keywords. -/
theorem extractKeywords_amended_correct :
    (∀ q, extractKeywords q = extractKeywordsAmended q) ∧
    (∀ q, (extractKeywords q).length ≤ 10) ∧
    extractKeywords [] = [] := by
  refine ⟨?_, ?_, rfl⟩
  · intro q
    unfold extractKeywords extractKeywordsAmended
    rw [amendScrub_eq, specSplitWs_eq, filter_absorb keepTok _ _ keepTok_nonempty]
  · intro q
    exact List.length_take_le _ _

/-!  Claim C1. -/

/-- C1, counterexample: the per-keyword checks are not case-insensitive in
the keyword: the keyword `A` is compared verbatim against the lowercased
title `a`, misses, and the document scores 5 (brevity only), while the
claimed fully case-insensitive sum yields 15. -/
theorem scorer_ci_counterexample :
    ¬ ((scoreDocumentRelevance [exDocT] ["A".data] "zzz".data).map
        (fun sd => sd.relevanceScore) =
      [specRelevanceScoreCI ["A".data] "zzz".data exDocT]) := by decide

/-- C1 as amended: every candidate is assigned exactly the additive score
(100 for the full query in the lowercased title, 50 in the lowercased
content, 10 and 3 per keyword verbatim in the lowercased title and content,
15 per keyword that is a substring of some lowercased tag, 5 for content
shorter than 1000 characters); for lowercase keywords — which the extractor
always produces — this agrees with the fully case-insensitive reading; a
zero-signal candidate scores 0 and is not excluded; the output is sorted by
score descending, and ties preserve input order (equal-score sublists are
unchanged). -/
theorem scorer_characterization :
    (∀ documents keywords q sd, sd ∈ scoreDocumentRelevance documents keywords q →
        sd.relevanceScore = codeRelevanceScore keywords q sd.doc) ∧
    (∀ (keywords : List Str) (q : Str) d, (∀ k, k ∈ keywords → toLowerStr k = k) →
        codeRelevanceScore keywords q d = specRelevanceScoreCI keywords q d) ∧
    (∀ documents keywords q,
        (scoreDocumentRelevance documents keywords q).Pairwise
          (fun a b => b.relevanceScore ≤ a.relevanceScore)) ∧
    (∀ documents keywords q s,
        (scoreDocumentRelevance documents keywords q).filter
            (fun sd => decide (sd.relevanceScore = s)) =
          (documents.map (fun doc =>
              ({ doc := doc, relevanceScore := scoreDoc doc keywords q } :
                ScoredDocument))).filter
            (fun sd => decide (sd.relevanceScore = s))) ∧
    (∀ documents keywords q d, d ∈ documents →
        ∃ sd, sd ∈ scoreDocumentRelevance documents keywords q ∧ sd.doc = d ∧
          sd.relevanceScore = codeRelevanceScore keywords q d) := by
  refine ⟨?_, ?_, ?_, ?_, ?_⟩
  · intro documents keywords q sd hsd
    rcases mem_scored_doc documents keywords q sd hsd with ⟨_, hscore⟩
    rw [hscore, scoreDoc_eq_code]
  · intro keywords q d hlow
    unfold codeRelevanceScore specRelevanceScoreCI hasSubCI
    have h1 : keywords.countP (fun k => hasSub (toLowerStr d.title) k) =
        keywords.countP (fun k => hasSub (toLowerStr d.title) (toLowerStr k)) :=
      List.countP_congr (fun k hk => by rw [hlow k hk])
    have h2 : keywords.countP (fun k => hasSub (toLowerStr d.content) k) =
        keywords.countP (fun k => hasSub (toLowerStr d.content) (toLowerStr k)) :=
      List.countP_congr (fun k hk => by rw [hlow k hk])
    have h3 : keywords.countP (fun k =>
          d.tags.any (fun tag => hasSub (toLowerStr tag) k)) =
        keywords.countP (fun k =>
          d.tags.any (fun tag => hasSub (toLowerStr tag) (toLowerStr k))) :=
      List.countP_congr (fun k hk => by rw [hlow k hk])
    rw [h1, h2, h3]
  · intro documents keywords q
    unfold scoreDocumentRelevance
    exact pairwise_sortDescBy _ _
  · intro documents keywords q s
    unfold scoreDocumentRelevance
    exact filter_sortDescBy _ s _
  · intro documents keywords q d hd
    refine ⟨{ doc := d, relevanceScore := scoreDoc d keywords q }, ?_, rfl,
      scoreDoc_eq_code d keywords q⟩
    unfold scoreDocumentRelevance
    exact (perm_sortDescBy _ _).mem_iff.mpr (List.mem_map.mpr ⟨d, hd, rfl⟩)

/-- C1, witness: the amended scorer theorem applied at concrete inputs. -/
theorem scorer_characterization_witness :
    codeRelevanceScore ["ab".data] [] exDocT = specRelevanceScoreCI ["ab".data] [] exDocT ∧
    ∃ sd, sd ∈ scoreDocumentRelevance [exDocT] [] [] ∧ sd.doc = exDocT ∧
      sd.relevanceScore = codeRelevanceScore [] [] exDocT :=
  ⟨scorer_characterization.2.1 ["ab".data] [] exDocT (by decide),
   scorer_characterization.2.2.2.2 [exDocT] [] [] exDocT (by decide)⟩

/-!  Claim C10. -/

theorem sum_map_add (f g : α → Nat) (l : List α) :
    (l.map (fun k => f k + g k)).sum = (l.map f).sum + (l.map g).sum := by
  induction l with
  | nil => simp
  | cons a as ih => simp [ih]; omega

theorem scoreDoc_base_perKw (d : RAGDocument) (keywords : List Str) (q : Str) :
    scoreDoc d keywords q =
      basePts q d + (keywords.map (fun k => perKeywordPts d k)).sum := by
  rw [scoreDoc_eq_code]
  simp only [perKeywordPts]
  rw [sum_map_add, sum_map_add, sum_map_ite_count, sum_map_ite_count, sum_map_ite_count]
  unfold codeRelevanceScore basePts
  have h1 : List.countP (hasSub (toLowerStr d.title)) keywords =
      List.countP (fun k => hasSub (toLowerStr d.title) k) keywords := rfl
  have h2 : List.countP (hasSub (toLowerStr d.content)) keywords =
      List.countP (fun k => hasSub (toLowerStr d.content) k) keywords := rfl
  rw [h1, h2]
  omega

/-- C10, counterexample: with eleven meaningful tokens the tenth-slot
truncation drops the last one, so a word occurring once among the tokens
occupies no keyword slot. -/
theorem keyword_slots_counterexample :
    List.count "www".data (extractKeywords
        "tok0 tok1 tok2 tok3 tok4 tok5 tok6 tok7 tok8 tok9 www".data) ≠
      List.count "www".data (meaningfulTokensOf
        "tok0 tok1 tok2 tok3 tok4 tok5 tok6 tok7 tok8 tok9 www".data) := by decide

/-- C10 as amended: keywords are not deduplicated — as long as the
meaningful tokens fit in the ten slots, a word occurring k times occupies
k slots; and the scorer adds the per-keyword title/content/tag points once
per occurrence, so a keyword repeated m times contributes m times its
per-occurrence points. -/
theorem keyword_multiplicity :
    (∀ q w, (meaningfulTokensOf q).length ≤ 10 →
        List.count w (extractKeywords q) = List.count w (meaningfulTokensOf q)) ∧
    (∀ d keywords q, scoreDoc d keywords q =
        basePts q d + (keywords.map (fun k => perKeywordPts d k)).sum) ∧
    (∀ d k m q, scoreDoc d (List.replicate m k) q =
        basePts q d + m * perKeywordPts d k) := by
  refine ⟨?_, ?_, ?_⟩
  · intro q w hlen
    unfold extractKeywords
    have hmt : (jsSplitWs (scrubPunct (toLowerStr q))).filter keepTok =
        meaningfulTokensOf q := rfl
    rw [hmt, List.take_of_length_le hlen]
  · intro d keywords q
    exact scoreDoc_base_perKw d keywords q
  · intro d k m q
    rw [scoreDoc_base_perKw]
    simp [List.map_replicate, List.sum_replicate, smul_eq_mul]

/-- C10, witness: the amended multiplicity theorem at a concrete repeated
word. -/
theorem keyword_multiplicity_witness :
    List.count "www".data (extractKeywords "www www".data) =
      List.count "www".data (meaningfulTokensOf "www www".data) :=
  keyword_multiplicity.1 "www www".data "www".data (by decide)

/-!  Claim C7. -/

theorem keepTok_false_of (t : Str) (h : t.length ≤ 2 ∨ t ∈ stopWords) :
    keepTok t = false := by
  unfold keepTok
  rcases h with hlen | hstop
  · have hd : decide (2 < t.length) = false := by
      simp only [decide_eq_false_iff_not]
      omega
    simp [hd]
  · have hc : stopWords.contains t = true := by
      simpa [List.contains] using List.elem_iff.mpr hstop
    simp only [hc, Bool.not_true, Bool.and_false]

/-- C7: a query whose tokens are all stop words or of length at most two
yields no keywords, and retrieval then returns the empty sequence with an
empty query trace — no store query is issued. -/
theorem stopword_short_circuit :
    ∀ st ctx query limit,
      (∀ t, t ∈ jsSplitWs (scrubPunct (toLowerStr query)) →
        t.length ≤ 2 ∨ t ∈ stopWords) →
      extractKeywords query = [] ∧
      retrieveRelevantDocumentsT st ctx query limit = ([], []) := by
  intro st ctx query limit h
  have hext : extractKeywords query = [] := by
    unfold extractKeywords
    rw [filter_eq_nil_of_none keepTok _ (fun t ht => keepTok_false_of t (h t ht))]
    exact List.take_nil
  exact ⟨hext, by simp [retrieveRelevantDocumentsT, hext]⟩

/-- C7, witness: the short-circuit theorem at a concrete all-stop-word
query and store. -/
theorem stopword_short_circuit_witness :
    extractKeywords "is the a".data = [] ∧
    retrieveRelevantDocumentsT { db := [exDocT], fails := fun _ => false } none
      "is the a".data 5 = ([], []) :=
  stopword_short_circuit { db := [exDocT], fails := fun _ => false } none
    "is the a".data 5 (by decide)

/-!  Claim C2. -/

/-- Tenant-A document used by the scoped-retrieval witnesses. -/
def exDocA : RAGDocument :=
  { id := "a1".data, title := "pw reset".data, content := "reset info".data,
    tags := [], organizationId := some "A".data, isActive := true, createdAt := 1 }

/-- A store holding only the tenant-A document, never failing. -/
def exStoreA : Store := { db := [exDocA], fails := fun _ => false }

/-- C2: every document returned by any path of the retrieval is active, and
under a nonempty tenant scope every returned document belongs to that
tenant. -/
theorem retrieval_active_and_scoped :
    (∀ st ctx query limit d, d ∈ retrieveRelevantDocuments st ctx query limit →
        d.isActive = true) ∧
    (∀ st (o : Str) query limit d, o.isEmpty = false →
        d ∈ retrieveRelevantDocuments st (some o) query limit →
        d.organizationId = some o) := by
  constructor
  · intro st ctx query limit d hd
    rcases retrieve_mem_trace st ctx query limit d hd with ⟨qq, _, hrow⟩
    exact (queryRows_active_org st.db qq d hrow).1
  · intro st o query limit d ho hd
    rcases retrieve_mem_trace st (some o) query limit d hd with ⟨qq, hin, hrow⟩
    have horg := retrieve_trace_org st (some o) query limit qq hin
    have h2 := (queryRows_active_org st.db qq d hrow).2
    rw [horg] at h2
    simp only [truthyScope, ho, Bool.false_eq_true, if_neg, not_false_eq_true] at h2
    simpa [orgMatch] using h2

/-- C2, witness: the scoped-retrieval theorem at a concrete tenant-A store
and matching query. -/
theorem retrieval_active_and_scoped_witness :
    exDocA.isActive = true ∧ exDocA.organizationId = some "A".data :=
  ⟨retrieval_active_and_scoped.1 exStoreA (some "A".data) "reset".data 5 exDocA
      (by decide),
   retrieval_active_and_scoped.2 exStoreA "A".data "reset".data 5 exDocA
      (by decide) (by decide)⟩

/-!  Claim C5. -/

/-- C5: when any store query issued by the retrieval (primary or fallback)
fails, the retrieval returns the empty sequence; the engine functions are
total, so no error ever reaches the caller. -/
theorem store_error_degrades_empty :
    (∀ st ctx query limit,
        (∃ qq, qq ∈ (retrieveRelevantDocumentsT st ctx query limit).2 ∧
          st.fails qq = true) →
        (retrieveRelevantDocumentsT st ctx query limit).1 = []) ∧
    (∀ st ctx query limit,
        (∃ qq, qq ∈ (fallbackDocumentSearchT st ctx query limit).2 ∧
          st.fails qq = true) →
        (fallbackDocumentSearchT st ctx query limit).1 = []) :=
  ⟨retrieve_fail_empty, fallback_fail_empty⟩

/-- A store whose every query fails. -/
def exStoreFail : Store := { db := [exDocA], fails := fun _ => true }

/-- C5, witness: the degradation theorem at a concrete always-failing
store. -/
theorem store_error_degrades_empty_witness :
    (retrieveRelevantDocumentsT exStoreFail none "reset".data 5).1 = [] ∧
    (fallbackDocumentSearchT exStoreFail none "reset".data 5).1 = [] :=
  ⟨store_error_degrades_empty.1 exStoreFail none "reset".data 5
      ⟨StoreQuery.primary (extractKeywords "reset".data) none 10, by decide, rfl⟩,
   store_error_degrades_empty.2 exStoreFail none "reset".data 5
      ⟨StoreQuery.fallbackWords (fallbackWordsOf "reset".data) none 5, by decide, rfl⟩⟩

/-!  Claim C9. -/

/-- C9, counterexample: `setOrganizationContext` is an engine operation
that changes the scope an instance was constructed with. -/
theorem scope_mutability_counterexample :
    (setOrganizationContext (AIService.make (some "A".data))
        (some "B".data)).currentOrganizationId ≠
      (AIService.make (some "A".data)).currentOrganizationId := by decide

/-- C9 as amended: the scope is bound at construction (empty or absent
normalized to none) and is changed only by `setOrganizationContext`; every
store query issued by a retrieval call filters by the truthy scope the
instance holds at call time. -/
theorem scope_usage :
    (∀ o, (AIService.make o).currentOrganizationId = truthyScope o) ∧
    (∀ svc st query limit qq, qq ∈ (AIService.retrieveDocsT svc st query limit).2 →
        qq.orgOf = truthyScope svc.currentOrganizationId) := by
  constructor
  · intro o
    rfl
  · intro svc st query limit qq h
    exact retrieve_trace_org st svc.currentOrganizationId query limit qq h

/-- C9, witness: the scope-usage theorem at a concrete scoped instance. -/
theorem scope_usage_witness :
    (StoreQuery.primary (extractKeywords "reset".data) (some "A".data) 10).orgOf =
      truthyScope (AIService.make (some "A".data)).currentOrganizationId :=
  scope_usage.2 (AIService.make (some "A".data)) exStoreA "reset".data 5
    (StoreQuery.primary (extractKeywords "reset".data) (some "A".data) 10) (by decide)

/-!  Claim C4. -/

/-- C4: with a nonempty keyword set, a successful primary query returning
zero candidates makes retrieval return exactly the fallback result; the
fallback with no words of length greater than 3 returns the most recent
active in-scope documents (createdAt descending, capped at limit), and
otherwise returns the title-or-content word-filtered rows as-is in store
order, capped at limit, unscored. -/
theorem retrieval_fallback_path :
    (∀ st ctx query limit, (extractKeywords query).isEmpty = false →
        runQuery st (StoreQuery.primary (extractKeywords query) (truthyScope ctx)
          (limit * 2)) = Except.ok [] →
        (retrieveRelevantDocumentsT st ctx query limit).1 =
          (fallbackDocumentSearchT st ctx query limit).1) ∧
    (∀ st ctx query limit, (fallbackWordsOf query).isEmpty = true →
        st.fails (StoreQuery.recent (truthyScope ctx) limit) = false →
        (fallbackDocumentSearchT st ctx query limit).1 =
          (sortDescBy (fun d => d.createdAt)
            (st.db.filter (fun d => d.isActive && orgMatch (truthyScope ctx) d))).take
            limit) ∧
    (∀ st ctx query limit, (fallbackWordsOf query).isEmpty = false →
        st.fails (StoreQuery.fallbackWords (fallbackWordsOf query) (truthyScope ctx)
          limit) = false →
        (fallbackDocumentSearchT st ctx query limit).1 =
          (st.db.filter (fun d => d.isActive && orgMatch (truthyScope ctx) d &&
            fallbackCond (fallbackWordsOf query) d)).take limit) := by
  refine ⟨?_, ?_, ?_⟩
  · intro st ctx query limit hk hok
    unfold retrieveRelevantDocumentsT
    simp only [hk, Bool.false_eq_true, if_neg, not_false_eq_true]
    rw [hok]
    simp
  · intro st ctx query limit hw hf
    simp [fallbackDocumentSearchT, runQuery, hw, hf, queryRows]
  · intro st ctx query limit hw hf
    simp [fallbackDocumentSearchT, runQuery, hw, hf, queryRows]

/-- Document matched only by the fallback filter: `about` is a stop word
for the primary keywords but a long-enough fallback word. -/
def exDocAbout : RAGDocument :=
  { id := "ab".data, title := "about us page".data, content := "misc".data,
    tags := [], organizationId := none, isActive := true, createdAt := 2 }

/-- A store holding only that document, never failing. -/
def exStoreAbout : Store := { db := [exDocAbout], fails := fun _ => false }

/-- C4, witness: the fallback-path theorem at a concrete query whose
primary search is empty but whose fallback words match, and at an empty
query for the recent-documents branch. -/
theorem retrieval_fallback_witness :
    (retrieveRelevantDocumentsT exStoreAbout none "thing about".data 5).1 =
      (fallbackDocumentSearchT exStoreAbout none "thing about".data 5).1 ∧
    (fallbackDocumentSearchT exStoreAbout none "thing about".data 5).1 =
      (exStoreAbout.db.filter (fun d => d.isActive && orgMatch (truthyScope none) d &&
        fallbackCond (fallbackWordsOf "thing about".data) d)).take 5 ∧
    (fallbackDocumentSearchT exStoreAbout none [] 5).1 =
      (sortDescBy (fun d => d.createdAt)
        (exStoreAbout.db.filter (fun d => d.isActive &&
          orgMatch (truthyScope none) d))).take 5 :=
  ⟨retrieval_fallback_path.1 exStoreAbout none "thing about".data 5 (by decide) rfl,
   retrieval_fallback_path.2.2 exStoreAbout none "thing about".data 5 (by decide) rfl,
   retrieval_fallback_path.2.1 exStoreAbout none [] 5 (by decide) rfl⟩

/-!  Claim C6. -/

/-- C6: the assembled context is empty for no documents; each document's
content appears in full when at most 1500 characters long, and otherwise
exactly its first 1500 characters appear followed by the `...` marker. -/
theorem context_roundtrip :
    generateContext [] = [] ∧
    ∀ docs d, d ∈ docs →
      (d.content.length ≤ 1500 → hasSub (generateContext docs) d.content = true) ∧
      (1500 < d.content.length →
        hasSub (generateContext docs) (d.content.take 1500 ++ "...".data) = true) := by
  refine ⟨rfl, ?_⟩
  intro docs d hd
  rcases generateContext_decomp docs d hd with ⟨p, q, hpq⟩
  constructor
  · intro hle
    have ht : truncOf d = d.content := by
      unfold truncOf
      rw [if_neg (by omega)]
    rw [hpq, ht, ← List.append_assoc]
    exact hasSub_parts p d.content q
  · intro hgt
    have ht : truncOf d = d.content.take 1500 ++ "...".data := by
      unfold truncOf
      rw [if_pos hgt]
    rw [hpq, ht, ← List.append_assoc]
    exact hasSub_parts p (d.content.take 1500 ++ "...".data) q

/-- A short document for the context witness. -/
def exDocSmall : RAGDocument :=
  { id := "s".data, title := "s".data, content := "hi".data, tags := [],
    organizationId := none, isActive := true, createdAt := 0 }

/-- A document whose content exceeds the 1500-character cap. -/
def exDocBig : RAGDocument :=
  { id := "b".data, title := "b".data,
    content := List.replicate 1501 (Char.ofNat 97), tags := [],
    organizationId := none, isActive := true, createdAt := 0 }

/-- C6, witness: the round-trip theorem at one short and one long concrete
document. -/
theorem context_roundtrip_witness :
    hasSub (generateContext [exDocSmall, exDocBig]) exDocSmall.content = true ∧
    hasSub (generateContext [exDocSmall, exDocBig])
      (exDocBig.content.take 1500 ++ "...".data) = true := by
  constructor
  · exact (context_roundtrip.2 [exDocSmall, exDocBig] exDocSmall
      (List.mem_cons_self _ _)).1 (by decide)
  · refine (context_roundtrip.2 [exDocSmall, exDocBig] exDocBig
      (List.mem_cons_of_mem _ (List.mem_cons_self _ _))).2 ?_
    show 1500 < (List.replicate 1501 (Char.ofNat 97)).length
    rw [List.length_replicate]
    omega

/-!  Claim C8. -/

/-- A document that the duplicate store holds twice. -/
def exDocDup : RAGDocument :=
  { id := "d".data, title := "alpha doc".data, content := "xx".data, tags := [],
    organizationId := none, isActive := true, createdAt := 0 }

/-- A store whose row list contains the same document twice. -/
def exStoreDup : Store := { db := [exDocDup, exDocDup], fails := fun _ => false }

/-- C8, counterexample: the scorer performs no deduplication — a candidate
list holding the same document twice yields it twice in the ranked,
truncated primary-path output. -/
theorem scorer_dedup_counterexample :
    ¬ (retrieveRelevantDocuments exStoreDup none "alpha".data 5).Nodup := by decide

/-- C8 as amended: the scorer preserves candidate multiplicities (its
output is a permutation of the scored candidates); the ranked, truncated
output is duplicate-free whenever the store rows are duplicate-free. -/
theorem scorer_preserves_nodup :
    (∀ documents keywords q,
        List.Perm (scoreDocumentRelevance documents keywords q)
          (documents.map (fun doc =>
            ({ doc := doc, relevanceScore := scoreDoc doc keywords q } :
              ScoredDocument)))) ∧
    (∀ st ctx query limit, st.db.Nodup →
        (retrieveRelevantDocumentsT st ctx query limit).1.Nodup) := by
  constructor
  · intro documents keywords q
    unfold scoreDocumentRelevance
    exact perm_sortDescBy _ _
  · exact retrieve_nodup

/-- C8, witness: the duplicate-freedom theorem at a concrete
duplicate-free store. -/
theorem scorer_preserves_nodup_witness :
    (retrieveRelevantDocumentsT exStoreA none "reset".data 5).1.Nodup :=
  scorer_preserves_nodup.2 exStoreA none "reset".data 5 (by decide)
